import Mathlib

/-!
Verification of the llm-proxy request queue, retrying executor, webhook
notifier and record reaper, as implemented in src/unnamed/part_001 (the
variant with the wall-clock timeout) and src/src/index.ts.

The executor is embedded as a timed event trace: every store mutation,
webhook invocation and slot release performed for one job is emitted as an
event tagged with the (virtual) millisecond at which the single-threaded
runtime performs it.  The admission queue is embedded as a transition
system over the waiting list and the in-flight set.
-/

namespace LLMProxy

/-- The four values of the status field of a RequestStatus record. -/
inductive Status
  | pending
  | processing
  | completed
  | error
deriving DecidableEq, Repr

/-- The error object written to a record: message, type tag, and the
optional attempts count (part_001 lines 69-73). -/
structure ErrInfo where
  message : String
  type : String
  attempts : Option Nat
deriving DecidableEq, Repr

/-- Outcome of one downstream openai.chat.completions.create call: either a
response, or a thrown error carrying an optional message and type field
(both read with a fallback in the code). -/
inductive Outcome
  | ok (response : String)
  | fail (message : Option String) (etype : Option String)
deriving DecidableEq, Repr

/-- One downstream attempt: its outcome and how many milliseconds the call
takes to settle. -/
structure Attempt where
  outcome : Outcome
  duration : Nat
deriving DecidableEq, Repr

/-- Observable actions the executor performs for one job: record-store
writes, webhook invocations, and the release of the in-flight slot
(the finally block of startProcessing). -/
inductive Event
  | setStatus (s : Status)
  | setResponse (r : String)
  | setError (e : ErrInfo)
  | webhook (status : Status) (response : Option String) (error : Option ErrInfo)
  | slotReleased
deriving DecidableEq, Repr

/-- A timestamped event. -/
abbrev TEvent := Nat × Event

/-- Fallback message used when the thrown error has none (part_001 line 371). -/
def defaultErrMessage : String := "An error occurred while processing your request"

/-- Fallback type used when the thrown error has none (part_001 line 372). -/
def defaultErrType : String := "internal_server_error"

/-- Default REQUEST_TIMEOUT_MS (part_001 line 11). -/
def requestTimeoutMs : Nat := 300000

/-- Default MAX_CONCURRENT (part_001 line 10). -/
def maxConcurrentDefault : Nat := 2

/-- Backoff before the next retry: Math.pow(2, retryCount) * 1000
(part_001 line 363). -/
def backoffDelay (retryCount : Nat) : Nat := 2 ^ retryCount * 1000

/-- Shallow embedding of processRequestWithRetry (part_001 lines 332-384).
Arguments: whether the record has a webhookUrl, the downstream outcomes
(att n is the outcome of the call made with retryCount = n), a fuel bound
(always called with 3, enough for retryCount = 0, 1, 2), the start time of
the current attempt, and the current retryCount.  Returns the timed trace
of store writes and webhook calls, the time at which the promise settles,
and the list of backoff delays awaited between attempts. -/
def processRequestWithRetry (hasWebhook : Bool) (att : Nat → Attempt) :
    Nat → Nat → Nat → List TEvent × Nat × List Nat
  | 0, t, _ => ([], t, [])
  | fuel + 1, t, retryCount =>
    let a := att retryCount
    let t1 := t + a.duration
    match a.outcome with
    | Outcome.ok r =>
      ((t, Event.setStatus Status.processing) :: (t1, Event.setStatus Status.completed) ::
        (t1, Event.setResponse r) ::
        (if hasWebhook then [(t1, Event.webhook Status.completed (some r) none)] else []),
        t1, [])
    | Outcome.fail msg ty =>
      if retryCount < 2 then
        let d := backoffDelay retryCount
        let rest := processRequestWithRetry hasWebhook att fuel (t1 + d) (retryCount + 1)
        ((t, Event.setStatus Status.processing) :: rest.1, rest.2.1, d :: rest.2.2)
      else
        let e : ErrInfo :=
          ⟨msg.getD defaultErrMessage, ty.getD defaultErrType, some (retryCount + 1)⟩
        ((t, Event.setStatus Status.processing) :: (t1, Event.setStatus Status.error) ::
          (t1, Event.setError e) ::
          (if hasWebhook then [(t1, Event.webhook Status.error none (some e))] else []),
          t1, [])

/-- The whole retry sequence for one job, started at time 0 with
retryCount = 0 (fuel 3 covers the three attempts the guard allows). -/
def retryResult (hasWebhook : Bool) (att : Nat → Attempt) : List TEvent × Nat × List Nat :=
  processRequestWithRetry hasWebhook att 3 0 0

/-- Merge two time-sorted traces into the single order in which the runtime
performs the events (ties resolved in favour of the first trace); the fuel
argument only drives the structural recursion and is always sufficient. -/
def mergeTAux : Nat → List TEvent → List TEvent → List TEvent
  | 0, xs, ys => xs ++ ys
  | n + 1, xs, ys =>
    match xs, ys with
    | [], ys => ys
    | xs, [] => xs
    | x :: xs, y :: ys =>
      if x.1 ≤ y.1 then x :: mergeTAux n xs (y :: ys) else y :: mergeTAux n (x :: xs) ys

/-- Merge two time-sorted traces. -/
def mergeT (xs ys : List TEvent) : List TEvent := mergeTAux (xs.length + ys.length) xs ys

/-- The error object written by the timeout catch block (part_001 lines
138-142): message from the raced Error, type timeout_error, and no
attempts field. -/
def timeoutErrInfo : ErrInfo := ⟨"Request timeout", "timeout_error", none⟩

/-- The events the catch block of startProcessing performs at the moment
the timeout rejection wins the race (part_001 lines 134-151), followed by
the finally block releasing the slot. -/
def timeoutCatchEvents (hasWebhook : Bool) (timeoutMs : Nat) : List TEvent :=
  (timeoutMs, Event.setStatus Status.error) :: (timeoutMs, Event.setError timeoutErrInfo) ::
    (if hasWebhook then [(timeoutMs, Event.webhook Status.error none (some timeoutErrInfo))]
      else []) ++ [(timeoutMs, Event.slotReleased)]

/-- Shallow embedding of RequestQueue.startProcessing (part_001 lines
121-156) for one job: Promise.race of the retry sequence against a
rejection scheduled at timeoutMs.  processRequest returns at once when the
record is absent from the store (present = false).  When the timeout fires
strictly before the retry sequence settles, the catch block records a
timeout error and notifies while the un-cancelled retry sequence keeps
running and performs its own writes when its calls return; otherwise the
race resolves and only the finally block (slot release) follows. -/
def startProcessing (hasWebhook : Bool) (timeoutMs : Nat) (present : Bool)
    (att : Nat → Attempt) : List TEvent :=
  if present then
    let r := retryResult hasWebhook att
    if timeoutMs < r.2.1 then
      mergeT r.1 (timeoutCatchEvents hasWebhook timeoutMs)
    else
      r.1 ++ [(r.2.1, Event.slotReleased)]
  else
    [(0, Event.slotReleased)]

/-- The sequence of values written to the status field, in trace order. -/
def statusWrites (tr : List TEvent) : List Status :=
  tr.filterMap (fun te =>
    match te.2 with
    | Event.setStatus s => some s
    | _ => none)

/-- The error objects written to the record, in trace order. -/
def errorWrites (tr : List TEvent) : List ErrInfo :=
  tr.filterMap (fun te =>
    match te.2 with
    | Event.setError e => some e
    | _ => none)

/-- Is this event a webhook invocation? -/
def isWebhook : Event → Bool
  | Event.webhook _ _ _ => true
  | _ => false

/-- The webhook invocations of a trace, in order. -/
def webhookEvents (tr : List TEvent) : List TEvent :=
  tr.filter (fun te => isWebhook te.2)

/-- Number of downstream attempts started (each attempt begins by writing
status processing). -/
def attemptCount (tr : List TEvent) : Nat :=
  (statusWrites tr).count Status.processing

/-- Is the status terminal? -/
def isTerminal : Status → Bool
  | Status.completed => true
  | Status.error => true
  | _ => false

/-- Allowed single steps of the status field per the lifecycle state
machine pending → processing → (completed or error); re-entering
processing from processing covers retries. -/
def allowedStep : Status → Status → Bool
  | Status.pending, Status.processing => true
  | Status.processing, Status.processing => true
  | Status.processing, Status.completed => true
  | Status.processing, Status.error => true
  | _, _ => false

/-- Every adjacent pair of the list is an allowed status step. -/
def chainOk : List Status → Bool
  | [] => true
  | [_] => true
  | a :: b :: rest => allowedStep a b && chainOk (b :: rest)

/-- Checks each webhook event against the status most recently written to
the record before it: the notifier must fire after the write and carry
that status. -/
def webhookMatchesLastWrite : Option Status → List TEvent → Bool
  | _, [] => true
  | _, (_, Event.setStatus s) :: rest => webhookMatchesLastWrite (some s) rest
  | cur, (_, Event.webhook s _ _) :: rest =>
    (cur == some s) && webhookMatchesLastWrite cur rest
  | cur, _ :: rest => webhookMatchesLastWrite cur rest

/-- True when no record write (status, response or error) occurs after a
webhook event, so the webhook also agrees with the final record. -/
def noWriteAfterWebhook : Bool → List TEvent → Bool
  | _, [] => true
  | seen, (_, e) :: rest =>
    match e with
    | Event.webhook _ _ _ => noWriteAfterWebhook true rest
    | Event.setStatus _ => !seen && noWriteAfterWebhook seen rest
    | Event.setResponse _ => !seen && noWriteAfterWebhook seen rest
    | Event.setError _ => !seen && noWriteAfterWebhook seen rest
    | Event.slotReleased => noWriteAfterWebhook seen rest

/-- A job record as stored in requestStore (part_001 lines 64-75); the
request payload is opaque. -/
structure Record where
  status : Status
  request : String
  webhookUrl : Option String
  response : Option String
  error : Option ErrInfo
  timestamp : Nat
deriving DecidableEq, Repr

/-- requestStore.get on an association-list model of the Map. -/
def storeGet (store : List (String × Record)) (id : String) : Option Record :=
  (store.find? (fun p => p.1 == id)).map Prod.snd

/-- Outcome of the fetch performed by callWebhook. -/
inductive FetchOutcome
  | ok
  | notOk (bodyText : String)
  | netError (message : String)
deriving DecidableEq, Repr

/-- Shallow embedding of callWebhook (part_001 lines 308-330): look the
record up, return at once when it is absent or has no webhookUrl,
otherwise perform one fetch; a non-ok response or a thrown error is only
logged.  Returns, inside Except to make raised exceptions visible, the
store after the call, the number of fetch attempts made, and the log
lines. -/
def callWebhook (store : List (String × Record)) (id : String) (outcome : FetchOutcome) :
    Except String (List (String × Record) × Nat × List String) :=
  match storeGet store id with
  | none => Except.ok (store, 0, [])
  | some r =>
    match r.webhookUrl with
    | none => Except.ok (store, 0, [])
    | some _ =>
      match outcome with
      | FetchOutcome.ok => Except.ok (store, 1, [])
      | FetchOutcome.notOk body =>
        Except.ok (store, 1, ["Webhook call failed for " ++ id ++ ": " ++ body])
      | FetchOutcome.netError m =>
        Except.ok (store, 1, ["Error calling webhook for " ++ id ++ ": " ++ m])

/-- Retention window of the cleanup sweep: 3600000 ms (part_001 line 197). -/
def retentionMs : Nat := 3600000

/-- Interval of the cleanup sweep: 300000 ms (part_001 line 203). -/
def cleanupIntervalMs : Nat := 300000

/-- One sweep of the setInterval cleanup (part_001 lines 196-203): delete
every record whose timestamp is older than one hour before now.  Natural
subtraction agrees with the JS arithmetic here because timestamps are
nonnegative. -/
def cleanupSweep (now : Nat) (store : List (String × Record)) : List (String × Record) :=
  store.filter (fun p => !(p.2.timestamp < now - retentionMs))

/-- Run the sweeps of a schedule in order. -/
def runSweeps (times : List Nat) (store : List (String × Record)) : List (String × Record) :=
  times.foldl (fun st s => cleanupSweep s st) store

/-- All sweep instants of the fixed grid that fire by the horizon: the
interval timer first fires one interval after start. -/
def gridSweepsUpTo (start horizon : Nat) : List Nat :=
  (List.range ((horizon - start) / cleanupIntervalMs)).map
    (fun k => start + (k + 1) * cleanupIntervalMs)

/-- State of the RequestQueue (part_001 lines 101-108): the waiting FIFO
list and the in-flight set (keys of the processing Map, insertion
order). -/
structure QState where
  queue : List String
  processing : List String
deriving DecidableEq, Repr

/-- The queue at process start. -/
def qInit : QState := ⟨[], []⟩

namespace RequestQueue

/-- RequestQueue.add (part_001 lines 110-119): under the limit the job is
admitted at once (startProcessing registers it in the processing Map
before any suspension), otherwise it is pushed on the waiting list. -/
def add (C : Nat) (s : QState) (id : String) : QState :=
  if s.processing.length < C then
    { s with processing := s.processing ++ [id] }
  else
    { s with queue := s.queue ++ [id] }

/-- The drain loop of RequestQueue.processNext (part_001 lines 158-169)
on raw components: shift the waiting head into the in-flight set while a
slot is free. -/
def drainQ (C : Nat) : List String → List String → QState
  | [], p => ⟨[], p⟩
  | x :: rest, p =>
    if p.length < C then drainQ C rest (p ++ [x]) else ⟨x :: rest, p⟩

/-- RequestQueue.processNext (part_001 lines 158-169). -/
def processNext (C : Nat) (s : QState) : QState := drainQ C s.queue s.processing

/-- The finally block of startProcessing (part_001 lines 152-155): remove
the job from the in-flight set, then drain the waiting list. -/
def jobFinally (C : Nat) (s : QState) (id : String) : QState :=
  processNext C ⟨s.queue, s.processing.erase id⟩

end RequestQueue

/-- The two ways the outside world touches the queue: a submission
(part_001 line 253 calling add) and a job settling (the finally block). -/
inductive QEvent
  | submit (id : String)
  | finish (id : String)
deriving DecidableEq, Repr

/-- Valid runs of the queue: submitted identifiers are fresh (nanoid ids
are globally unique, so a submitted id is in neither the waiting list nor
the in-flight set). -/
inductive ValidRun (C : Nat) : QState → List QEvent → QState → Prop
  | nil (s : QState) : ValidRun C s [] s
  | submit {s s' : QState} {es : List QEvent} (id : String)
      (hfresh : id ∉ s.queue ∧ id ∉ s.processing)
      (h : ValidRun C (RequestQueue.add C s id) es s') :
      ValidRun C s (QEvent.submit id :: es) s'
  | finish {s s' : QState} {es : List QEvent} (id : String)
      (h : ValidRun C (RequestQueue.jobFinally C s id) es s') :
      ValidRun C s (QEvent.finish id :: es) s'

/-- Well-formedness of a queue state: the in-flight set is within the
concurrency bound and no identifier repeats across the waiting list and
the in-flight set. -/
def QState.ok (C : Nat) (s : QState) : Prop :=
  s.processing.length ≤ C ∧ (s.queue ++ s.processing).Nodup

/-- A occurs in the list strictly before B. -/
def precedesB (A B : String) : List String → Bool
  | [] => false
  | x :: rest => if x = A then decide (B ∈ rest) else precedesB A B rest

/-- Completion time of startProcessing in the src/src/index.ts variant
(lines 82-93): the caller of startProcessing resumes only when the whole
job has settled. -/
def startProcessingDoneIndexTs (settle : Nat) : Nat := settle

/-- Completion time of RequestQueue.add in src/src/index.ts (lines 74-80):
under the limit it awaits startProcessing, so it resolves at the job's
settle time; at capacity it pushes and resolves at once. -/
def addDoneIndexTs (processingCount C settle : Nat) : Nat :=
  if processingCount < C then startProcessingDoneIndexTs settle else 0

/-- Time at which the POST /v1/chat/completions handler of
src/src/index.ts sends its 202 response (line 181: await
requestQueue.add(requestId) before res.json). -/
def submitRespondsAtIndexTs (processingCount C settle : Nat) : Nat :=
  addDoneIndexTs processingCount C settle

/-- Time at which the POST /v1/chat/completions handler of part_001 sends
its 202 response (line 253: requestQueue.add(requestId) is not awaited,
so the response is sent in the same tick regardless of admission). -/
def submitRespondsAtPart001 (_processingCount _C _settle : Nat) : Nat := 0

end LLMProxy

namespace LLMProxy

/-- Any member of the second trace is in the merge. -/
theorem mem_mergeTAux_right (a : TEvent) :
    ∀ (n : Nat) (xs ys : List TEvent), a ∈ ys → a ∈ mergeTAux n xs ys
  | 0, xs, ys, ha => by simpa [mergeTAux] using Or.inr ha
  | n + 1, xs, ys, ha => by
      cases xs with
      | nil => simpa [mergeTAux] using ha
      | cons x xs =>
        cases ys with
        | nil => simp at ha
        | cons y ys =>
          simp only [mergeTAux]
          split
          · exact List.mem_cons_of_mem _ (mem_mergeTAux_right a n xs (y :: ys) ha)
          · rcases List.mem_cons.mp ha with h1 | h2
            · exact h1 ▸ List.mem_cons_self _ _
            · exact List.mem_cons_of_mem _ (mem_mergeTAux_right a n (x :: xs) ys h2)

/-- Any member of the second trace is in the merge. -/
theorem mem_mergeT_of_right (a : TEvent) (xs ys : List TEvent) (h : a ∈ ys) :
    a ∈ mergeT xs ys :=
  mem_mergeTAux_right a (xs.length + ys.length) xs ys h

/-- C1 counterexample: a job with a callback whose single downstream call
succeeds after the wall-clock timeout is notified twice — the timeout
catch block sends an error event at 300000 ms and the un-guarded late
success path sends a completed event at 400000 ms. -/
theorem notify_twice_on_timeout_race :
    webhookEvents (startProcessing true 300000 true (fun _ => ⟨Outcome.ok "late", 400000⟩)) =
      [(300000, Event.webhook Status.error none (some timeoutErrInfo)),
       (400000, Event.webhook Status.completed (some "late") none)] := by
  rfl

/-- C1 (amended): for a job with a callback target whose retry sequence
settles within the wall-clock budget, the notifier is invoked exactly
once, it fires after the terminal write and carries the status recorded at
that moment, no record write follows it, and the final recorded status is
terminal. -/
theorem notifier_exactly_once_within_budget (att : Nat → Attempt) (timeoutMs : Nat)
    (hsettle : (retryResult true att).2.1 ≤ timeoutMs) :
    (webhookEvents (startProcessing true timeoutMs true att)).length = 1 ∧
    webhookMatchesLastWrite none (startProcessing true timeoutMs true att) = true ∧
    noWriteAfterWebhook false (startProcessing true timeoutMs true att) = true ∧
    ((statusWrites (startProcessing true timeoutMs true att)).getLast? = some Status.completed ∨
     (statusWrites (startProcessing true timeoutMs true att)).getLast? = some Status.error) := by
  have hnl : ¬ timeoutMs < (retryResult true att).2.1 := Nat.not_lt.mpr hsettle
  have hsp : startProcessing true timeoutMs true att =
      (retryResult true att).1 ++ [((retryResult true att).2.1, Event.slotReleased)] := by
    unfold startProcessing
    simp [hnl]
  rw [hsp]
  rcases h0 : (att 0).outcome with r0 | ⟨m0, ty0⟩
  · simp [retryResult, processRequestWithRetry, h0, webhookEvents, isWebhook,
      webhookMatchesLastWrite, noWriteAfterWebhook, statusWrites]
  · rcases h1 : (att 1).outcome with r1 | ⟨m1, ty1⟩
    · simp [retryResult, processRequestWithRetry, h0, h1, webhookEvents, isWebhook,
        webhookMatchesLastWrite, noWriteAfterWebhook, statusWrites]
    · rcases h2 : (att 2).outcome with r2 | ⟨m2, ty2⟩
      · simp [retryResult, processRequestWithRetry, h0, h1, h2, webhookEvents, isWebhook,
          webhookMatchesLastWrite, noWriteAfterWebhook, statusWrites]
      · simp [retryResult, processRequestWithRetry, h0, h1, h2, webhookEvents, isWebhook,
          webhookMatchesLastWrite, noWriteAfterWebhook, statusWrites]

/-- Witness for the amended C1 theorem at a concrete fast success. -/
theorem notifier_exactly_once_witness :
    (retryResult true (fun _ => ⟨Outcome.ok "r", 5⟩)).2.1 ≤ 300000 ∧
    ((webhookEvents (startProcessing true 300000 true (fun _ => ⟨Outcome.ok "r", 5⟩))).length = 1 ∧
     webhookMatchesLastWrite none (startProcessing true 300000 true (fun _ => ⟨Outcome.ok "r", 5⟩)) = true ∧
     noWriteAfterWebhook false (startProcessing true 300000 true (fun _ => ⟨Outcome.ok "r", 5⟩)) = true ∧
     ((statusWrites (startProcessing true 300000 true (fun _ => ⟨Outcome.ok "r", 5⟩))).getLast? = some Status.completed ∨
      (statusWrites (startProcessing true 300000 true (fun _ => ⟨Outcome.ok "r", 5⟩))).getLast? = some Status.error)) :=
  ⟨by decide, notifier_exactly_once_within_budget (fun _ => ⟨Outcome.ok "r", 5⟩) 300000 (by decide)⟩

end LLMProxy

namespace LLMProxy

/-- C2 counterexample: with the timeout firing at 300000 ms and the
un-cancelled downstream call succeeding at 400000 ms, the recorded status
sequence is processing, error, completed — the terminal error state is
left again, so the claimed transition discipline fails. -/
theorem terminal_state_overwritten_on_timeout_race :
    statusWrites (startProcessing true 300000 true (fun _ => ⟨Outcome.ok "late", 400000⟩)) =
      [Status.processing, Status.error, Status.completed] ∧
    chainOk (Status.pending :: statusWrites (startProcessing true 300000 true
      (fun _ => ⟨Outcome.ok "late", 400000⟩))) = false :=
  ⟨rfl, rfl⟩

/-- C2 (amended): whenever the retry sequence settles within the
wall-clock budget, every status transition of the job follows
pending → processing → (completed or error), and nothing follows a
terminal write. -/
theorem status_transitions_monotone_within_budget (hw : Bool) (att : Nat → Attempt)
    (timeoutMs : Nat) (hsettle : (retryResult hw att).2.1 ≤ timeoutMs) :
    chainOk (Status.pending :: statusWrites (startProcessing hw timeoutMs true att)) = true := by
  have hnl : ¬ timeoutMs < (retryResult hw att).2.1 := Nat.not_lt.mpr hsettle
  have hsp : startProcessing hw timeoutMs true att =
      (retryResult hw att).1 ++ [((retryResult hw att).2.1, Event.slotReleased)] := by
    unfold startProcessing
    simp [hnl]
  rw [hsp]
  rcases h0 : (att 0).outcome with r0 | ⟨m0, ty0⟩ <;>
    rcases h1 : (att 1).outcome with r1 | ⟨m1, ty1⟩ <;>
    rcases h2 : (att 2).outcome with r2 | ⟨m2, ty2⟩ <;>
    cases hw <;>
    simp [retryResult, processRequestWithRetry, h0, h1, h2, statusWrites, chainOk, allowedStep]

/-- Witness for the amended C2 theorem at a concrete fast success. -/
theorem status_transitions_monotone_witness :
    (retryResult true (fun _ => ⟨Outcome.ok "r", 5⟩)).2.1 ≤ 300000 ∧
    chainOk (Status.pending :: statusWrites (startProcessing true 300000 true
      (fun _ => ⟨Outcome.ok "r", 5⟩))) = true :=
  ⟨by decide, status_transitions_monotone_within_budget true (fun _ => ⟨Outcome.ok "r", 5⟩)
    300000 (by decide)⟩

/-- C4 counterexample: in a timed-out run the error object written by the
timeout path has no attempts field at all, against the claim that the
attempts made so far are recorded in the failure. -/
theorem timeout_error_omits_attempts :
    errorWrites (startProcessing true 300000 true (fun _ => ⟨Outcome.fail none none, 200000⟩)) =
      [timeoutErrInfo, ⟨defaultErrMessage, defaultErrType, some 3⟩] ∧
    timeoutErrInfo.attempts = none :=
  ⟨rfl, rfl⟩

/-- C4 (amended): when the wall-clock timeout elapses strictly before the
retry sequence settles, the job is forced to status error with the
timeout_error failure kind (whose attempts field is absent), the in-flight
slot is released at the timeout instant, and — when a callback target is
configured — the notifier is invoked for the timeout error. -/
theorem timeout_forces_error_and_releases_slot (hw : Bool) (att : Nat → Attempt)
    (timeoutMs : Nat) (h : timeoutMs < (retryResult hw att).2.1) :
    (timeoutMs, Event.setStatus Status.error) ∈ startProcessing hw timeoutMs true att ∧
    (timeoutMs, Event.setError timeoutErrInfo) ∈ startProcessing hw timeoutMs true att ∧
    timeoutErrInfo.type = "timeout_error" ∧
    (timeoutMs, Event.slotReleased) ∈ startProcessing hw timeoutMs true att ∧
    (hw = true → (timeoutMs, Event.webhook Status.error none (some timeoutErrInfo)) ∈
      startProcessing hw timeoutMs true att) := by
  have hsp : startProcessing hw timeoutMs true att =
      mergeT (retryResult hw att).1 (timeoutCatchEvents hw timeoutMs) := by
    unfold startProcessing
    simp [h]
  rw [hsp]
  refine ⟨?_, ?_, rfl, ?_, ?_⟩
  · exact mem_mergeT_of_right _ _ _ (by cases hw <;> simp [timeoutCatchEvents])
  · exact mem_mergeT_of_right _ _ _ (by cases hw <;> simp [timeoutCatchEvents])
  · exact mem_mergeT_of_right _ _ _ (by cases hw <;> simp [timeoutCatchEvents])
  · intro hhw
    subst hhw
    exact mem_mergeT_of_right _ _ _ (by simp [timeoutCatchEvents])

/-- Witness for the amended C4 theorem at a run that times out mid-retry. -/
theorem timeout_forces_error_witness :
    300000 < (retryResult true (fun _ => ⟨Outcome.fail none none, 200000⟩)).2.1 ∧
    ((300000, Event.setStatus Status.error) ∈
        startProcessing true 300000 true (fun _ => ⟨Outcome.fail none none, 200000⟩) ∧
      (300000, Event.setError timeoutErrInfo) ∈
        startProcessing true 300000 true (fun _ => ⟨Outcome.fail none none, 200000⟩) ∧
      timeoutErrInfo.type = "timeout_error" ∧
      (300000, Event.slotReleased) ∈
        startProcessing true 300000 true (fun _ => ⟨Outcome.fail none none, 200000⟩) ∧
      (true = true → (300000, Event.webhook Status.error none (some timeoutErrInfo)) ∈
        startProcessing true 300000 true (fun _ => ⟨Outcome.fail none none, 200000⟩))) :=
  ⟨by decide, timeout_forces_error_and_releases_slot true
    (fun _ => ⟨Outcome.fail none none, 200000⟩) 300000 (by decide)⟩

/-- C7: when every downstream call fails and the retry sequence settles
within the wall-clock budget, exactly three attempts are made, the backoff
delays awaited between consecutive attempts are 1000 ms then 2000 ms, and
the only failure recorded carries attempts = 3 and the kind of the last
underlying error (fallback internal_server_error), never the timeout
kind. -/
theorem retry_bound_three_attempts (hw : Bool) (att : Nat → Attempt) (timeoutMs : Nat)
    (m0 ty0 m1 ty1 m2 ty2 : Option String)
    (h0 : (att 0).outcome = Outcome.fail m0 ty0)
    (h1 : (att 1).outcome = Outcome.fail m1 ty1)
    (h2 : (att 2).outcome = Outcome.fail m2 ty2)
    (hsettle : (retryResult hw att).2.1 ≤ timeoutMs) :
    attemptCount (startProcessing hw timeoutMs true att) = 3 ∧
    (retryResult hw att).2.2 = [1000, 2000] ∧
    errorWrites (startProcessing hw timeoutMs true att) =
      [⟨m2.getD defaultErrMessage, ty2.getD defaultErrType, some 3⟩] ∧
    (statusWrites (startProcessing hw timeoutMs true att)).getLast? = some Status.error := by
  have hnl : ¬ timeoutMs < (retryResult hw att).2.1 := Nat.not_lt.mpr hsettle
  have hsp : startProcessing hw timeoutMs true att =
      (retryResult hw att).1 ++ [((retryResult hw att).2.1, Event.slotReleased)] := by
    unfold startProcessing
    simp [hnl]
  rw [hsp]
  cases hw <;>
    simp [retryResult, processRequestWithRetry, h0, h1, h2, attemptCount, statusWrites,
      errorWrites, backoffDelay]

/-- Witness for the C7 theorem at a concrete always-failing downstream. -/
theorem retry_bound_three_attempts_witness :
    (retryResult true (fun _ => ⟨Outcome.fail (some "boom") (some "rate_limit"), 10⟩)).2.1
        ≤ 300000 ∧
    (attemptCount (startProcessing true 300000 true
        (fun _ => ⟨Outcome.fail (some "boom") (some "rate_limit"), 10⟩)) = 3 ∧
      (retryResult true (fun _ => ⟨Outcome.fail (some "boom") (some "rate_limit"), 10⟩)).2.2 =
        [1000, 2000] ∧
      errorWrites (startProcessing true 300000 true
          (fun _ => ⟨Outcome.fail (some "boom") (some "rate_limit"), 10⟩)) =
        [⟨(some "boom").getD defaultErrMessage, (some "rate_limit").getD defaultErrType,
          some 3⟩] ∧
      (statusWrites (startProcessing true 300000 true
          (fun _ => ⟨Outcome.fail (some "boom") (some "rate_limit"), 10⟩))).getLast? =
        some Status.error) :=
  ⟨by decide, retry_bound_three_attempts true
    (fun _ => ⟨Outcome.fail (some "boom") (some "rate_limit"), 10⟩) 300000
    (some "boom") (some "rate_limit") (some "boom") (some "rate_limit")
    (some "boom") (some "rate_limit") rfl rfl rfl (by decide)⟩

/-- C5 (code bug): the src/src/index.ts POST handler awaits
requestQueue.add; on direct admission (in-flight below the limit) add
resolves only when the whole job settles — here 5000 ms — so the 202
response is blocked until the downstream work finishes, against the
claim and the code's own comment; at capacity it appends and responds at
once, and the part_001 handler (add not awaited) always responds at
once. -/
theorem submit_blocks_on_direct_admission :
    submitRespondsAtIndexTs 0 2 5000 = 5000 ∧
    submitRespondsAtIndexTs 2 2 5000 = 0 ∧
    submitRespondsAtPart001 0 2 5000 = 0 :=
  ⟨rfl, rfl, rfl⟩

/-- C8: callWebhook never raises, never changes the store (so the job
record's status, response and error fields are untouched), and makes at
most one delivery attempt, whatever the transport outcome. -/
theorem webhook_never_throws_and_preserves_store
    (store : List (String × Record)) (id : String) (outcome : FetchOutcome) :
    ∃ attempts logLines, callWebhook store id outcome =
      Except.ok (store, attempts, logLines) ∧ attempts ≤ 1 := by
  rcases h1 : storeGet store id with _ | r
  · exact ⟨0, [], by simp [callWebhook, h1], by omega⟩
  · rcases h2 : r.webhookUrl with _ | u
    · exact ⟨0, [], by simp [callWebhook, h1, h2], by omega⟩
    · cases outcome with
      | ok => exact ⟨1, [], by simp [callWebhook, h1, h2], by omega⟩
      | notOk body =>
        exact ⟨1, ["Webhook call failed for " ++ id ++ ": " ++ body],
          by simp [callWebhook, h1, h2], by omega⟩
      | netError m =>
        exact ⟨1, ["Error calling webhook for " ++ id ++ ": " ++ m],
          by simp [callWebhook, h1, h2], by omega⟩

end LLMProxy

namespace LLMProxy

/-- A record survives a sequence of sweeps iff it survives each one. -/
theorem mem_runSweeps (p : String × Record) :
    ∀ (times : List Nat) (store : List (String × Record)),
      p ∈ runSweeps times store ↔
        p ∈ store ∧ ∀ s ∈ times, ¬ p.2.timestamp < s - retentionMs
  | [], store => by simp [runSweeps]
  | s :: rest, store => by
      have step : runSweeps (s :: rest) store = runSweeps rest (cleanupSweep s store) := rfl
      rw [step, mem_runSweeps p rest (cleanupSweep s store)]
      simp only [cleanupSweep, List.mem_filter, List.mem_cons, Bool.not_eq_true',
        decide_eq_false_iff_not]
      constructor
      · rintro ⟨⟨hmem, hnot⟩, hall⟩
        refine ⟨hmem, ?_⟩
        rintro s' (rfl | hs')
        · simpa using hnot
        · exact hall s' hs'
      · rintro ⟨hmem, hall⟩
        exact ⟨⟨hmem, by simpa using hall s (Or.inl rfl)⟩, fun s' hs' => hall s' (Or.inr hs')⟩

/-- C9 counterexample: reaper started at process time 0, record created at
T = 60000 ms (one minute).  Every grid sweep up to T + 61 minutes
(3720000 ms) has run, yet the record is still present, because no sweep
falls inside (T + 60 min, T + 61 min]. -/
theorem record_present_at_61_minutes :
    ("job", (⟨Status.pending, "r", none, none, none, 60000⟩ : Record)) ∈
      runSweeps (gridSweepsUpTo 0 3720000)
        [("job", ⟨Status.pending, "r", none, none, none, 60000⟩)] := by
  decide

/-- C9 (amended): a record created at time T survives every grid sweep up
to T + 59 minutes; and, provided the five-minute sweep grid started no
later than T, some sweep fires in (T + 60 min, T + 65 min], so the record
is absent once the sweeps up to T + 65 minutes have run.  Absence at
T + 61 minutes is not guaranteed in general. -/
theorem eviction_window_bounds (store : List (String × Record)) (id : String) (r : Record)
    (start : Nat) (hmem : (id, r) ∈ store) (hstart : start ≤ r.timestamp) :
    (id, r) ∈ runSweeps (gridSweepsUpTo start (r.timestamp + 3540000)) store ∧
    (id, r) ∉ runSweeps (gridSweepsUpTo start (r.timestamp + 3900000)) store := by
  constructor
  · rw [mem_runSweeps]
    refine ⟨hmem, ?_⟩
    intro s hs
    simp only [gridSweepsUpTo, List.mem_map, List.mem_range] at hs
    obtain ⟨k, hk, rfl⟩ := hs
    have hq1 : (k + 1) * cleanupIntervalMs ≤
        (r.timestamp + 3540000 - start) / cleanupIntervalMs * cleanupIntervalMs :=
      Nat.mul_le_mul_right _ hk
    have hq2 : (r.timestamp + 3540000 - start) / cleanupIntervalMs * cleanupIntervalMs ≤
        r.timestamp + 3540000 - start := Nat.div_mul_le_self _ _
    simp only [retentionMs, cleanupIntervalMs] at *
    omega
  · rw [mem_runSweeps]
    rintro ⟨-, hall⟩
    set D := r.timestamp + retentionMs - start with hD
    have hdm : cleanupIntervalMs * (D / cleanupIntervalMs) + D % cleanupIntervalMs = D :=
      Nat.div_add_mod D cleanupIntervalMs
    have hrem : D % cleanupIntervalMs < cleanupIntervalMs :=
      Nat.mod_lt _ (by simp [cleanupIntervalMs])
    have hsin : start + (D / cleanupIntervalMs + 1) * cleanupIntervalMs ∈
        gridSweepsUpTo start (r.timestamp + 3900000) := by
      simp only [gridSweepsUpTo, List.mem_map, List.mem_range]
      refine ⟨D / cleanupIntervalMs, ?_, rfl⟩
      have hle : D / cleanupIntervalMs + 1 ≤
          (r.timestamp + 3900000 - start) / cleanupIntervalMs := by
        rw [Nat.le_div_iff_mul_le (by simp [cleanupIntervalMs])]
        simp only [retentionMs, cleanupIntervalMs] at *
        omega
      omega
    have hblock := hall _ hsin
    simp only [retentionMs, cleanupIntervalMs] at *
    omega

/-- Witness for the amended C9 theorem: reaper grid from process start 0,
record created at minute one; present after all sweeps up to T + 59
minutes, absent after the sweeps up to T + 65 minutes. -/
theorem eviction_window_bounds_witness :
    (("job", (⟨Status.pending, "r", none, none, none, 60000⟩ : Record)) ∈
        [("job", (⟨Status.pending, "r", none, none, none, 60000⟩ : Record))] ∧
      (0 : Nat) ≤ 60000) ∧
    (("job", (⟨Status.pending, "r", none, none, none, 60000⟩ : Record)) ∈
        runSweeps (gridSweepsUpTo 0 3600000)
          [("job", ⟨Status.pending, "r", none, none, none, 60000⟩)] ∧
      ("job", (⟨Status.pending, "r", none, none, none, 60000⟩ : Record)) ∉
        runSweeps (gridSweepsUpTo 0 3960000)
          [("job", ⟨Status.pending, "r", none, none, none, 60000⟩)]) :=
  ⟨⟨by decide, by decide⟩,
    eviction_window_bounds [("job", ⟨Status.pending, "r", none, none, none, 60000⟩)]
      "job" ⟨Status.pending, "r", none, none, none, 60000⟩ 0 (by decide) (by decide)⟩

end LLMProxy

namespace LLMProxy

/-- The drain loop never pushes the in-flight set above the bound. -/
theorem drainQ_length_le (C : Nat) :
    ∀ (q p : List String), p.length ≤ C → (RequestQueue.drainQ C q p).processing.length ≤ C
  | [], p, h => h
  | x :: rest, p, h => by
      by_cases hlt : p.length < C
      · simpa [RequestQueue.drainQ, hlt] using
          drainQ_length_le C rest (p ++ [x]) (by simp; omega)
      · simpa [RequestQueue.drainQ, hlt] using h

/-- The drain loop only moves identifiers between the two lists. -/
theorem drainQ_perm (C : Nat) :
    ∀ (q p : List String),
      List.Perm ((RequestQueue.drainQ C q p).queue ++ (RequestQueue.drainQ C q p).processing)
        (q ++ p)
  | [], p => by simp [RequestQueue.drainQ]
  | x :: rest, p => by
      by_cases hlt : p.length < C
      · have ih := drainQ_perm C rest (p ++ [x])
        simp only [RequestQueue.drainQ, if_pos hlt]
        refine ih.trans ?_
        have h1 : rest ++ (p ++ [x]) = (rest ++ p) ++ [x] := by rw [List.append_assoc]
        rw [h1]
        exact List.perm_append_singleton x (rest ++ p)
      · simp only [RequestQueue.drainQ, if_neg hlt]
        exact List.Perm.refl _

/-- Identifiers in the drained waiting list were waiting before. -/
theorem drainQ_queue_subset (C : Nat) :
    ∀ (q p : List String) (a : String), a ∈ (RequestQueue.drainQ C q p).queue → a ∈ q
  | [], p, a, h => by
      simp only [RequestQueue.drainQ] at h
      exact absurd h (List.not_mem_nil a)
  | x :: rest, p, a, h => by
      by_cases hlt : p.length < C
      · refine List.mem_cons_of_mem _ (drainQ_queue_subset C rest (p ++ [x]) a ?_)
        simpa only [RequestQueue.drainQ, if_pos hlt] using h
      · simpa [RequestQueue.drainQ, hlt] using h

/-- In-flight identifiers stay in-flight across the drain. -/
theorem drainQ_processing_mem (C : Nat) :
    ∀ (q p : List String) (a : String), a ∈ p → a ∈ (RequestQueue.drainQ C q p).processing
  | [], p, a, h => h
  | x :: rest, p, a, h => by
      by_cases hlt : p.length < C
      · simpa [RequestQueue.drainQ, hlt] using
          drainQ_processing_mem C rest (p ++ [x]) a (List.mem_append_left _ h)
      · simpa [RequestQueue.drainQ, hlt] using h

/-- add preserves well-formedness when the submitted id is fresh. -/
theorem ok_add (C : Nat) (s : QState) (id : String) (h : QState.ok C s)
    (hfresh : id ∉ s.queue ∧ id ∉ s.processing) : QState.ok C (RequestQueue.add C s id) := by
  obtain ⟨hlen, hnd⟩ := h
  have hnotin : id ∉ s.queue ++ s.processing := by
    simp only [List.mem_append]
    rintro (h1 | h2)
    · exact hfresh.1 h1
    · exact hfresh.2 h2
  have hdisj : List.Disjoint (s.queue ++ s.processing) [id] := by
    intro b hb hb'
    simp only [List.mem_singleton] at hb'
    subst hb'
    exact hnotin hb
  have hnd2 : ((s.queue ++ s.processing) ++ [id]).Nodup :=
    List.Nodup.append hnd (List.nodup_singleton id) hdisj
  unfold RequestQueue.add
  by_cases hlt : s.processing.length < C
  · simp only [if_pos hlt]
    constructor
    · simp only [List.length_append, List.length_singleton]
      omega
    · rw [← List.append_assoc]
      exact hnd2
  · simp only [if_neg hlt]
    refine ⟨hlen, ?_⟩
    have hperm : List.Perm ((s.queue ++ s.processing) ++ [id])
        ((s.queue ++ [id]) ++ s.processing) := by
      refine (List.perm_append_singleton id (s.queue ++ s.processing)).trans ?_
      rw [List.append_assoc]
      exact (List.perm_middle).symm
    exact hperm.nodup hnd2

/-- The finally block (remove from in-flight, then drain) preserves
well-formedness. -/
theorem ok_jobFinally (C : Nat) (s : QState) (id : String) (h : QState.ok C s) :
    QState.ok C (RequestQueue.jobFinally C s id) := by
  obtain ⟨hlen, hnd⟩ := h
  have hsub : List.Sublist (s.processing.erase id) s.processing :=
    List.erase_sublist id s.processing
  unfold RequestQueue.jobFinally RequestQueue.processNext
  constructor
  · exact drainQ_length_le C s.queue _ (le_trans hsub.length_le hlen)
  · have hnd' : (s.queue ++ s.processing.erase id).Nodup :=
      hnd.sublist (hsub.append_left s.queue)
    exact ((drainQ_perm C s.queue (s.processing.erase id)).symm.nodup hnd')

/-- Well-formedness is preserved along every valid run. -/
theorem ok_validRun (C : Nat) :
    ∀ {s s' : QState} {es : List QEvent}, ValidRun C s es s' → QState.ok C s → QState.ok C s' := by
  intro s s' es h
  induction h with
  | nil => exact id
  | submit id hfresh h ih => exact fun hok => ih (ok_add _ _ _ hok hfresh)
  | finish id h ih => exact fun hok => ih (ok_jobFinally _ _ _ hok)

/-- C3: over every valid sequence of submissions and job completions
starting from the empty queue, the in-flight set never exceeds the
concurrency limit and no identifier is simultaneously waiting and
in-flight. -/
theorem inflight_bounded_and_disjoint (C : Nat) (es : List QEvent) (s' : QState)
    (h : ValidRun C qInit es s') :
    s'.processing.length ≤ C ∧ ∀ id, id ∈ s'.queue → id ∉ s'.processing := by
  have hok : QState.ok C s' := ok_validRun C h ⟨by simp [qInit], by simp [qInit]⟩
  refine ⟨hok.1, ?_⟩
  intro id hq hp
  exact (List.disjoint_of_nodup_append hok.2) hq hp

/-- Witness for C3: two submissions and a completion with limit one. -/
theorem inflight_bounded_witness :
    (⟨[], ["b"]⟩ : QState).processing.length ≤ 1 ∧
    (∀ id, id ∈ (⟨[], ["b"]⟩ : QState).queue → id ∉ (⟨[], ["b"]⟩ : QState).processing) :=
  inflight_bounded_and_disjoint 1 [QEvent.submit "a", QEvent.submit "b", QEvent.finish "a"]
    ⟨[], ["b"]⟩
    (ValidRun.submit "a" (by decide) (ValidRun.submit "b" (by decide)
      (ValidRun.finish "a" (ValidRun.nil _))))

end LLMProxy

namespace LLMProxy

/-- If A strictly precedes B in the list, B is in the list. -/
theorem precedesB_mem_right (A B : String) :
    ∀ q : List String, precedesB A B q = true → B ∈ q
  | [], h => by simp [precedesB] at h
  | x :: rest, h => by
      by_cases hx : x = A
      · simp only [precedesB, if_pos hx, decide_eq_true_eq] at h
        exact List.mem_cons_of_mem _ h
      · simp only [precedesB, if_neg hx] at h
        exact List.mem_cons_of_mem _ (precedesB_mem_right A B rest h)

/-- Appending at the tail preserves strict precedence. -/
theorem precedesB_append (A B id : String) :
    ∀ q : List String, precedesB A B q = true → precedesB A B (q ++ [id]) = true
  | [], h => by simp [precedesB] at h
  | x :: rest, h => by
      by_cases hx : x = A
      · simp only [precedesB, if_pos hx, decide_eq_true_eq] at h
        simp only [List.cons_append, precedesB, if_pos hx, decide_eq_true_eq]
        exact List.mem_append_left _ h
      · simp only [precedesB, if_neg hx] at h
        simp only [List.cons_append, precedesB, if_neg hx]
        exact precedesB_append A B id rest h

/-- Draining from the head preserves the precedence of A over B unless it
admits A itself. -/
theorem drainQ_precedes (C : Nat) (A B : String) :
    ∀ (q p : List String), q.Nodup → precedesB A B q = true →
      precedesB A B (RequestQueue.drainQ C q p).queue = true ∨
        A ∉ (RequestQueue.drainQ C q p).queue
  | [], p, hnd, hpre => by simp [precedesB] at hpre
  | x :: rest, p, hnd, hpre => by
      by_cases hlt : p.length < C
      · simp only [RequestQueue.drainQ, if_pos hlt]
        by_cases hx : x = A
        · right
          intro hmem
          have hxr : x ∉ rest := (List.nodup_cons.mp hnd).1
          have hAr : A ∈ rest := drainQ_queue_subset C rest (p ++ [x]) A hmem
          rw [hx] at hxr
          exact hxr hAr
        · have hpre' : precedesB A B rest = true := by
            simpa only [precedesB, if_neg hx] using hpre
          exact drainQ_precedes C A B rest (p ++ [x]) (List.nodup_cons.mp hnd).2 hpre'
      · simp only [RequestQueue.drainQ, if_neg hlt]
        exact Or.inl hpre

/-- The FIFO invariant: as long as A is never resubmitted, either A still
precedes B in the waiting list or A is no longer waiting at all. -/
theorem fifo_invariant (C : Nat) (A B : String) {s s' : QState} {es : List QEvent}
    (h : ValidRun C s es s') :
    (∀ e ∈ es, e ≠ QEvent.submit A) → QState.ok C s →
    (precedesB A B s.queue = true ∨ A ∉ s.queue) →
    (precedesB A B s'.queue = true ∨ A ∉ s'.queue) := by
  induction h with
  | nil => exact fun _ _ hJ => hJ
  | @submit s s' es id hfresh h ih =>
      intro hA hok hJ
      refine ih (fun e he => hA e (List.mem_cons_of_mem _ he)) (ok_add _ _ _ hok hfresh) ?_
      have hidA : id ≠ A := by
        intro hcontra
        exact (hA (QEvent.submit id) (List.mem_cons_self _ _)) (by rw [hcontra])
      unfold RequestQueue.add
      by_cases hlt : s.processing.length < C
      · simpa only [if_pos hlt] using hJ
      · simp only [if_neg hlt]
        rcases hJ with hpre | hnot
        · exact Or.inl (precedesB_append A B id s.queue hpre)
        · right
          simp only [List.mem_append, List.mem_singleton]
          rintro (h1 | h2)
          · exact hnot h1
          · exact hidA h2.symm
  | @finish s s' es id h ih =>
      intro hA hok hJ
      refine ih (fun e he => hA e (List.mem_cons_of_mem _ he)) (ok_jobFinally _ _ _ hok) ?_
      unfold RequestQueue.jobFinally RequestQueue.processNext
      rcases hJ with hpre | hnot
      · have hndq : s.queue.Nodup := (List.nodup_append.mp hok.2).1
        exact drainQ_precedes C A B s.queue (s.processing.erase id) hndq hpre
      · right
        intro hmem
        exact hnot (drainQ_queue_subset C s.queue (s.processing.erase id) A hmem)

/-- C6: if A precedes B in the waiting list of a well-formed queue state
and A is never resubmitted, then in every state reachable by valid events,
B being in-flight implies A is no longer waiting — waiting jobs are
admitted in FIFO order. -/
theorem fifo_admission_order (C : Nat) (A B : String) (s0 s' : QState) (es : List QEvent)
    (hok : QState.ok C s0) (hAB : precedesB A B s0.queue = true)
    (hA : ∀ e ∈ es, e ≠ QEvent.submit A) (hrun : ValidRun C s0 es s')
    (hBproc : B ∈ s'.processing) : A ∉ s'.queue := by
  have hok' := ok_validRun C hrun hok
  rcases fifo_invariant C A B hrun hA hok (Or.inl hAB) with hpre | hnot
  · exfalso
    have hBq : B ∈ s'.queue := precedesB_mem_right A B s'.queue hpre
    exact (List.disjoint_of_nodup_append hok'.2) hBq hBproc
  · exact hnot

/-- Witness for C6: with limit one, jobs A and B waiting behind in-flight
x; after x and then A settle, B is in-flight and A no longer waits. -/
theorem fifo_admission_order_witness :
    (QState.ok 1 ⟨["A", "B"], ["x"]⟩ ∧
      precedesB "A" "B" (⟨["A", "B"], ["x"]⟩ : QState).queue = true ∧
      (∀ e ∈ [QEvent.finish "x", QEvent.finish "A"], e ≠ QEvent.submit "A") ∧
      "B" ∈ (⟨[], ["B"]⟩ : QState).processing) ∧
    "A" ∉ (⟨[], ["B"]⟩ : QState).queue :=
  ⟨⟨⟨by decide, by decide⟩, by decide, by decide, by decide⟩,
    fifo_admission_order 1 "A" "B" ⟨["A", "B"], ["x"]⟩ ⟨[], ["B"]⟩
      [QEvent.finish "x", QEvent.finish "A"]
      ⟨by decide, by decide⟩ (by decide) (by decide)
      (ValidRun.finish "x" (ValidRun.finish "A" (ValidRun.nil _))) (by decide)⟩

/-- C10: when the job's record is absent from the store, the executor
performs no store write and no webhook call — its trace is exactly the
slot release — and the finally block still removes the job from the
in-flight set and drains the waiting queue, admitting the waiting head as
soon as the slot frees. -/
theorem missing_record_releases_slot_and_drains (hw : Bool) (timeoutMs : Nat)
    (att : Nat → Attempt) (C : Nat) (x : String) (restq p : List String) (id : String)
    (hroom : (p.erase id).length < C) :
    startProcessing hw timeoutMs false att = [(0, Event.slotReleased)] ∧
    x ∈ (RequestQueue.jobFinally C ⟨x :: restq, p⟩ id).processing := by
  constructor
  · rfl
  · unfold RequestQueue.jobFinally RequestQueue.processNext
    simp only [RequestQueue.drainQ, if_pos hroom]
    exact drainQ_processing_mem C restq (p.erase id ++ [x]) x (by simp)

/-- Witness for C10 at a concrete one-slot queue. -/
theorem missing_record_witness :
    ((["i"].erase "i").length < 1) ∧
    (startProcessing true 300000 false (fun _ => ⟨Outcome.ok "r", 5⟩) =
        [(0, Event.slotReleased)] ∧
      "x" ∈ (RequestQueue.jobFinally 1 ⟨["x"], ["i"]⟩ "i").processing) :=
  ⟨by decide, missing_record_releases_slot_and_drains true 300000
    (fun _ => ⟨Outcome.ok "r", 5⟩) 1 "x" [] ["i"] "i" (by decide)⟩

end LLMProxy
